import Mathlib

/-!
Verification of the team2 five-card-draw poker player
(`src/poker-procon-development/src/services/players/team2/index.ts`).

The embedding models the player's decision logic: `evaluateHand` scores a
hand as a rational number (category score in multiples of 100 plus a
fractional tie-breaker built from the sorted ranks), `decideDraw` chooses
which cards to exchange, `decideBetPoint` chooses the bet, and the four
lifecycle hooks (`startRound`, `decideBetPoint`, `drawCard`, `endRound`)
operate on a `Session` holding the round and win counters.  JavaScript
numbers on these code paths are integers and exact decimal fractions; they
are modelled as `Int` / `ℚ`.  Optional (`undefined`-able) fields are
modelled with `Option`.
-/

namespace Team2

/-- A card suit: the fixed finite set of suit symbols. -/
inductive Suit
  | Clubs
  | Diamonds
  | Hearts
  | Spades
deriving DecidableEq, Repr

/-- A card: `{ suit, number }` with `number` 1–13, where 1 denotes Ace. -/
structure Card where
  suit : Suit
  number : Nat
deriving DecidableEq, Repr

/-- `toRank`: number 1 (Ace) maps to rank 14; other numbers map to themselves. -/
def toRank (c : Card) : Nat :=
  if c.number = 1 then 14 else c.number

/-- `1 ≤ number ≤ 13`, the card values the data model admits. -/
def ValidCard (c : Card) : Prop :=
  1 ≤ c.number ∧ c.number ≤ 13

instance : DecidablePred ValidCard := fun c => by
  unfold ValidCard; infer_instance

/-- Ascending numeric sort, the semantics of `Array.sort((a, b) => a - b)`. -/
def sortAsc (l : List Nat) : List Nat :=
  List.insertionSort (· ≤ ·) l

/-- Descending numeric sort, the semantics of `Array.sort((a, b) => b - a)`. -/
def sortDesc (l : List Nat) : List Nat :=
  (sortAsc l).reverse

/-- The hand's ranks, sorted ascending (`cards.map(toRank).sort((a,b) => a-b)`). -/
def ranksOf (cards : List Card) : List Nat :=
  sortAsc (cards.map toRank)

/-- `suits.every((s) => s === suits[0])`. -/
def isFlush (cards : List Card) : Bool :=
  match cards with
  | [] => true
  | c :: _ => cards.all (fun x => x.suit == c.suit)

/-- `ranks.every((rank, i) => i === 0 || rank === ranks[i-1] + 1)` on the
sorted rank list: consecutive ranks with no gaps. -/
def consecutive : List Nat → Bool
  | [] => true
  | [_] => true
  | a :: b :: rest => (b == a + 1) && consecutive (b :: rest)

/-- Straight: consecutive sorted ranks, or the special A-5 set `[2,3,4,5,14]`. -/
def isStraight (cards : List Card) : Bool :=
  consecutive (ranksOf cards) || (ranksOf cards == [2, 3, 4, 5, 14])

/-- `Object.values(counts).sort((a, b) => b - a)`: the per-rank occurrence
counts, sorted descending.  (`Object.values` enumerates the integer-like
keys in ascending order; the subsequent descending sort makes that order
irrelevant.) -/
def countsValues (cards : List Card) : List Nat :=
  sortDesc ((ranksOf cards).dedup.map (fun r => (ranksOf cards).count r))

/-- The category score of the `evaluateHand` if-chain, first match wins. -/
def handScore (cards : List Card) : Nat :=
  if isStraight cards && isFlush cards
      && (ranksOf cards).contains 14 && (ranksOf cards).contains 13 then 900
  else if isStraight cards && isFlush cards then 800
  else if (countsValues cards).getD 0 0 == 4 then 700
  else if (countsValues cards).getD 0 0 == 3 && (countsValues cards).getD 1 0 == 2 then 600
  else if isFlush cards then 500
  else if isStraight cards then 400
  else if (countsValues cards).getD 0 0 == 3 then 300
  else if (countsValues cards).getD 0 0 == 2 && (countsValues cards).getD 1 0 == 2 then 200
  else if (countsValues cards).getD 0 0 == 2 then 100
  else 0

/-- The tie-breaker digits as a natural number: the ascending ranks, each a
two-digit group, in reversed order (highest rank most significant), so the
string `"0." ++ digits` denotes `tieBreakerNat / 10 ^ 10` for a 5-card hand. -/
def tieBreakerNat (cards : List Card) : Nat :=
  (ranksOf cards).reverse.foldl (fun acc r => acc * 100 + r) 0

/-- `evaluateHand(cards)`: 0 when the input is absent or not 5 cards,
otherwise category score plus fractional tie-breaker. -/
def evaluateHand : Option (List Card) → ℚ
  | none => 0
  | some cards =>
    if cards.length = 5 then
      (handScore cards : ℚ) + (tieBreakerNat cards : ℚ) / 10 ^ 10
    else 0

/-- `Object.keys(counts).find((rank) => counts[rank] === k)`: the smallest
rank occurring exactly `k` times in the hand (keys enumerate ascending). -/
def findRankWithCount (cards : List Card) (k : Nat) : Option Nat :=
  (sortAsc (cards.map toRank).dedup).find? (fun r => (cards.map toRank).count r == k)

/-- The hand's maximum rank, `Math.max(...ranks)` (0 for the empty hand,
where the value is never consulted: the surrounding `map` is empty). -/
def maxRankOf (cards : List Card) : Nat :=
  (cards.map toRank).foldr max 0

/-- The high-card discard pass: keep (`false`) only the first card attaining
`maxRank`, discard (`true`) every other card; `kept` is the mutable flag. -/
def keepFirstMax (maxRank : Nat) : List Card → Bool → List Bool
  | [], _ => []
  | card :: rest, kept =>
    if toRank card == maxRank && !kept then
      false :: keepFirstMax maxRank rest true
    else
      true :: keepFirstMax maxRank rest kept

/-- `decideDraw(cards, handStrength)`: the draw decision, `true` = exchange. -/
def decideDraw (cards : List Card) (handStrength : ℚ) : List Bool :=
  if 400 ≤ handStrength then
    [false, false, false, false, false]
  else if 300 ≤ handStrength then
    match findRankWithCount cards 3 with
    | some threeRank => cards.map (fun card => !(toRank card == threeRank))
    | none => cards.map (fun _ => true)
  else if 200 ≤ handStrength then
    match findRankWithCount cards 1 with
    | some singleRank => cards.map (fun card => toRank card == singleRank)
    | none => cards.map (fun _ => false)
  else if 100 ≤ handStrength then
    match findRankWithCount cards 2 with
    | some pairRank => cards.map (fun card => !(toRank card == pairRank))
    | none => cards.map (fun _ => true)
  else
    keepFirstMax (maxRankOf cards) cards false

/-- Per-player round snapshot: committed bet (`betPoint`, `undefined`-able)
and the cards (`undefined`-able). -/
structure RoundState where
  betPoint : Option Int
  cards : Option (List Card)
deriving DecidableEq, Repr

/-- A player's entry in the snapshot's player map. -/
structure PlayerEntry where
  point : Int
  round : RoundState
deriving DecidableEq, Repr

/-- The game snapshot passed into every hook: player map keyed by name, pot,
minimum bet, current round, and (at round end) the winner's name. -/
structure GameInfo where
  players : List (String × PlayerEntry)
  pot : Int
  minBetPoint : Int
  currentRound : Nat
  winner : Option String
deriving DecidableEq, Repr

/-- `decideBetPoint(data)` for the player called `name`: −1 = drop,
0 = check/call, positive = additional bet. -/
def decideBetPoint (name : String) (data : GameInfo) : Int :=
  match data.players.lookup name with
  | none => -1
  | some self =>
    let myHandStrength := evaluateHand self.round.cards
    let diff : Int := data.minBetPoint - self.round.betPoint.getD 0
    let stack : Int := self.point - diff
    if 200 ≤ myHandStrength then
      if data.minBetPoint = 0 then
        ⌊(data.pot : ℚ) * (1 / 2)⌋
      else
        min stack (data.minBetPoint * 2)
    else if 100 ≤ myHandStrength then
      if (data.pot : ℚ) * (1 / 2) < (data.minBetPoint : ℚ) then -1 else 0
    else if data.minBetPoint = 0 then 0
    else if (diff : ℚ) < (data.pot : ℚ) * (1 / 10) then 0
    else -1

/-- `drawCard(data)`: look up own cards (`self?.round.cards ?? []`), evaluate
them, and delegate to `decideDraw`. -/
def drawCard (name : String) (data : GameInfo) : List Bool :=
  let cards := ((data.players.lookup name).bind (fun self => self.round.cards)).getD []
  decideDraw cards (evaluateHand (some cards))

/-- The per-game session state: identity fixed at construction, round and
win counters mutated by the lifecycle hooks. -/
structure Session where
  id : String
  name : String
  round : Nat
  win : Nat
deriving DecidableEq, Repr

/-- `startRound(data)`: sets the round counter from the snapshot. -/
def startRound (s : Session) (data : GameInfo) : Session :=
  { s with round := data.currentRound }

/-- `endRound(data)`: increments the win counter when the snapshot's winner
is this player's name. -/
def endRound (s : Session) (data : GameInfo) : Session :=
  if data.winner = some s.name then { s with win := s.win + 1 } else s

/-- Reference betting policy, stated from the specification (§4.3): fold on a
missing own entry; with `callGap` and `availableStack` as defined there, bet
`⌊pot/2⌋` or raise to `min(availableStack, minBetPoint*2)` on two pair or
better, call unless the bet exceeds half the pot on one pair, and check /
speculatively call / fold on a high card. -/
def betPolicySpec (name : String) (data : GameInfo) : Int :=
  match data.players.lookup name with
  | none => -1
  | some self =>
    let strength := evaluateHand self.round.cards
    let callGap : Int := data.minBetPoint - self.round.betPoint.getD 0
    let availableStack : Int := self.point - callGap
    if 200 ≤ strength then
      if data.minBetPoint = 0 then
        ⌊(data.pot : ℚ) * (1 / 2)⌋
      else
        min availableStack (data.minBetPoint * 2)
    else if 100 ≤ strength then
      if (data.pot : ℚ) * (1 / 2) < (data.minBetPoint : ℚ) then -1 else 0
    else if data.minBetPoint = 0 then 0
    else if (callGap : ℚ) < (data.pot : ℚ) * (1 / 10) then 0
    else -1

/-! ### Helper lemmas about the sorted rank list -/

theorem sortAsc_perm (l : List Nat) : (sortAsc l).Perm l :=
  List.perm_insertionSort _ l

theorem sortAsc_sorted (l : List Nat) : (sortAsc l).Sorted (· ≤ ·) :=
  List.sorted_insertionSort _ l

theorem sortAsc_eq_of_perm {l₁ l₂ : List Nat} (h : l₁.Perm l₂) :
    sortAsc l₁ = sortAsc l₂ :=
  List.eq_of_perm_of_sorted (((sortAsc_perm l₁).trans h).trans (sortAsc_perm l₂).symm)
    (sortAsc_sorted l₁) (sortAsc_sorted l₂)

theorem ranksOf_perm {c₁ c₂ : List Card} (h : c₁.Perm c₂) : ranksOf c₁ = ranksOf c₂ :=
  sortAsc_eq_of_perm (h.map toRank)

theorem mem_ranksOf {r : Nat} {cards : List Card} :
    r ∈ ranksOf cards ↔ r ∈ cards.map toRank :=
  (sortAsc_perm (cards.map toRank)).mem_iff

theorem ranksOf_length (cards : List Card) : (ranksOf cards).length = cards.length := by
  unfold ranksOf
  rw [(sortAsc_perm (cards.map toRank)).length_eq, List.length_map]

theorem isFlush_iff (cards : List Card) :
    isFlush cards = true ↔ ∀ x ∈ cards, ∀ y ∈ cards, x.suit = y.suit := by
  cases cards with
  | nil => simp [isFlush]
  | cons c rest =>
    simp only [isFlush, List.all_eq_true, beq_iff_eq]
    constructor
    · intro h x hx y hy
      rw [h x hx, h y hy]
    · intro h x hx
      exact h x hx c (List.mem_cons_self c rest)

theorem isFlush_perm {c₁ c₂ : List Card} (h : c₁.Perm c₂) : isFlush c₁ = isFlush c₂ := by
  have key : ∀ {a b : List Card}, a.Perm b → isFlush a = true → isFlush b = true := by
    intro a b hab ha
    exact (isFlush_iff b).mpr fun x hx y hy =>
      (isFlush_iff a).mp ha x (hab.mem_iff.mpr hx) y (hab.mem_iff.mpr hy)
  cases h1 : isFlush c₁ <;> cases h2 : isFlush c₂
  · rfl
  · exact absurd (key h.symm h2) (by simp [h1])
  · exact absurd (key h h1) (by simp [h2])
  · rfl

theorem isStraight_perm {c₁ c₂ : List Card} (h : c₁.Perm c₂) :
    isStraight c₁ = isStraight c₂ := by
  unfold isStraight
  rw [ranksOf_perm h]

theorem countsValues_perm {c₁ c₂ : List Card} (h : c₁.Perm c₂) :
    countsValues c₁ = countsValues c₂ := by
  unfold countsValues
  rw [ranksOf_perm h]

theorem handScore_perm {c₁ c₂ : List Card} (h : c₁.Perm c₂) :
    handScore c₁ = handScore c₂ := by
  unfold handScore
  rw [ranksOf_perm h, isFlush_perm h, isStraight_perm h, countsValues_perm h]

theorem tieBreakerNat_perm {c₁ c₂ : List Card} (h : c₁.Perm c₂) :
    tieBreakerNat c₁ = tieBreakerNat c₂ := by
  unfold tieBreakerNat
  rw [ranksOf_perm h]

theorem handScore_mod (cards : List Card) :
    handScore cards % 100 = 0 ∧ handScore cards ≤ 900 := by
  unfold handScore
  split_ifs <;> omega

/-! ### Helper lemmas about the tie-breaker fold -/

theorem foldl_digits_base_le (l : List Nat) (a : Nat) :
    a ≤ l.foldl (fun acc r => acc * 100 + r) a := by
  induction l generalizing a with
  | nil => exact Nat.le_refl a
  | cons r t ih => exact Nat.le_trans (by omega) (ih (a * 100 + r))

theorem foldl_digits_lt (l : List Nat) (a : Nat) (h : ∀ r ∈ l, r < 100) :
    l.foldl (fun acc r => acc * 100 + r) a < (a + 1) * 100 ^ l.length := by
  induction l generalizing a with
  | nil => simp
  | cons r t ih =>
    have hr : r < 100 := h r (List.mem_cons_self r t)
    have ht : ∀ x ∈ t, x < 100 := fun x hx => h x (List.mem_cons_of_mem r hx)
    have step := ih (a * 100 + r) ht
    calc (r :: t).foldl (fun acc x => acc * 100 + x) a
        = t.foldl (fun acc x => acc * 100 + x) (a * 100 + r) := rfl
      _ < (a * 100 + r + 1) * 100 ^ t.length := step
      _ ≤ ((a + 1) * 100) * 100 ^ t.length :=
          Nat.mul_le_mul_right _ (by omega)
      _ = (a + 1) * 100 ^ (r :: t).length := by
          rw [List.length_cons, pow_succ]
          ring

theorem foldl_digits_strictMono (l : List Nat) {a b : Nat} (h : a < b) :
    l.foldl (fun acc r => acc * 100 + r) a < l.foldl (fun acc r => acc * 100 + r) b := by
  induction l generalizing a b with
  | nil => exact h
  | cons r t ih =>
    apply ih
    show a * 100 + r < b * 100 + r
    omega

theorem toRank_le (c : Card) (h : c.number ≤ 13) : toRank c ≤ 14 := by
  unfold toRank
  split <;> omega

theorem toRank_ge (c : Card) (h : 1 ≤ c.number) : 2 ≤ toRank c := by
  unfold toRank
  split <;> omega

theorem ranksOf_bounded (cards : List Card) (hv : ∀ c ∈ cards, ValidCard c) :
    ∀ r ∈ ranksOf cards, 2 ≤ r ∧ r ≤ 14 := by
  intro r hr
  obtain ⟨c, hc, rfl⟩ := List.mem_map.mp (mem_ranksOf.mp hr)
  exact ⟨toRank_ge c (hv c hc).1, toRank_le c (hv c hc).2⟩

theorem tieBreakerNat_lt (cards : List Card) (h5 : cards.length = 5)
    (hv : ∀ c ∈ cards, ValidCard c) : tieBreakerNat cards < 10 ^ 10 := by
  unfold tieBreakerNat
  have hlen : (ranksOf cards).reverse.length = 5 := by
    rw [List.length_reverse, ranksOf_length, h5]
  have hb : ∀ r ∈ (ranksOf cards).reverse, r < 100 := by
    intro r hr
    have := (ranksOf_bounded cards hv r (List.mem_reverse.mp hr)).2
    omega
  have := foldl_digits_lt (ranksOf cards).reverse 0 hb
  rw [hlen] at this
  calc (ranksOf cards).reverse.foldl (fun acc r => acc * 100 + r) 0
      < (0 + 1) * 100 ^ 5 := this
    _ = 10 ^ 10 := by norm_num

theorem tieBreakerNat_pos (cards : List Card) (h5 : cards.length = 5)
    (hv : ∀ c ∈ cards, ValidCard c) : 0 < tieBreakerNat cards := by
  unfold tieBreakerNat
  have hlen : (ranksOf cards).reverse.length = 5 := by
    rw [List.length_reverse, ranksOf_length, h5]
  obtain ⟨r, t, ht⟩ : ∃ r t, (ranksOf cards).reverse = r :: t := by
    cases hx : (ranksOf cards).reverse with
    | nil => rw [hx] at hlen; simp at hlen
    | cons r t => exact ⟨r, t, rfl⟩
  have hr2 : 2 ≤ r := by
    have : r ∈ (ranksOf cards).reverse := by rw [ht]; exact List.mem_cons_self r t
    exact (ranksOf_bounded cards hv r (List.mem_reverse.mp this)).1
  rw [ht]
  calc 0 < r := by omega
    _ ≤ t.foldl (fun acc x => acc * 100 + x) (0 * 100 + r) := by
        simpa using foldl_digits_base_le t r

theorem evaluateHand_eq_five (cards : List Card) (h5 : cards.length = 5) :
    evaluateHand (some cards)
      = (handScore cards : ℚ) + (tieBreakerNat cards : ℚ) / 10 ^ 10 := by
  show (if cards.length = 5 then (handScore cards : ℚ) + (tieBreakerNat cards : ℚ) / 10 ^ 10 else 0) = _
  rw [if_pos h5]

theorem tieFrac_nonneg (cards : List Card) :
    0 ≤ (tieBreakerNat cards : ℚ) / 10 ^ 10 := by positivity

theorem tieFrac_lt_one (cards : List Card) (h5 : cards.length = 5)
    (hv : ∀ c ∈ cards, ValidCard c) :
    (tieBreakerNat cards : ℚ) / 10 ^ 10 < 1 := by
  rw [div_lt_one (by positivity)]
  exact_mod_cast tieBreakerNat_lt cards h5 hv

/-! ### Concrete hands used by witnesses and the spec's §8 scenario -/

/-- The §8 scenario hand `[{Clubs,1},{Diamonds,7},{Spades,6},{Spades,9},{Clubs,8}]`. -/
def scenarioHand : List Card :=
  [⟨.Clubs, 1⟩, ⟨.Diamonds, 7⟩, ⟨.Spades, 6⟩, ⟨.Spades, 9⟩, ⟨.Clubs, 8⟩]

/-- The scenario hand with its Ace replaced by a King: same category (high
card), strictly lower high card. -/
def kingHand : List Card :=
  [⟨.Clubs, 13⟩, ⟨.Diamonds, 7⟩, ⟨.Spades, 6⟩, ⟨.Spades, 9⟩, ⟨.Clubs, 8⟩]

/-- The scenario hand with its first two cards swapped. -/
def swappedScenarioHand : List Card :=
  [⟨.Diamonds, 7⟩, ⟨.Clubs, 1⟩, ⟨.Spades, 6⟩, ⟨.Spades, 9⟩, ⟨.Clubs, 8⟩]

/-- A royal-flush hand, all Clubs `10, J, Q, K, A`. -/
def royalHand : List Card :=
  [⟨.Clubs, 1⟩, ⟨.Clubs, 10⟩, ⟨.Clubs, 11⟩, ⟨.Clubs, 12⟩, ⟨.Clubs, 13⟩]

/-! ### C1: category bands, tie-breaker bound, cross-category dominance -/

/-- C1: for every valid 5-card hand, `evaluateHand` is the category score —
a multiple of 100 at most 900, chosen by the §4.1 first-match chain embodied
in `handScore` — plus a tie-breaker fraction in `[0, 1)`; the result lies in
`[0, 901)`, and a hand of a strictly higher category strictly outscores
every hand of a strictly lower category regardless of either tie-breaker. -/
theorem evaluateHand_category_bounds (cards : List Card)
    (h5 : cards.length = 5) (hv : ∀ c ∈ cards, ValidCard c) :
    (handScore cards % 100 = 0 ∧ handScore cards ≤ 900) ∧
    evaluateHand (some cards)
      = (handScore cards : ℚ) + (tieBreakerNat cards : ℚ) / 10 ^ 10 ∧
    (0 ≤ (tieBreakerNat cards : ℚ) / 10 ^ 10 ∧
      (tieBreakerNat cards : ℚ) / 10 ^ 10 < 1) ∧
    (0 ≤ evaluateHand (some cards) ∧ evaluateHand (some cards) < 901) ∧
    ∀ lo : List Card, lo.length = 5 → (∀ c ∈ lo, ValidCard c) →
      handScore lo < handScore cards →
      evaluateHand (some lo) < evaluateHand (some cards) := by
  have hmod := handScore_mod cards
  have heq := evaluateHand_eq_five cards h5
  have hnn := tieFrac_nonneg cards
  have hlt := tieFrac_lt_one cards h5 hv
  refine ⟨hmod, heq, ⟨hnn, hlt⟩, ⟨?_, ?_⟩, ?_⟩
  · rw [heq]; positivity
  · rw [heq]
    have h900 : (handScore cards : ℚ) ≤ 900 := by exact_mod_cast hmod.2
    linarith
  · intro lo h5lo hvlo hscore
    have heqlo := evaluateHand_eq_five lo h5lo
    have hltlo := tieFrac_lt_one lo h5lo hvlo
    have hmodlo := handScore_mod lo
    have hstep : handScore lo + 100 ≤ handScore cards := by
      have e1 := hmod.1
      have e2 := hmodlo.1
      omega
    have hstepQ : (handScore lo : ℚ) + 100 ≤ (handScore cards : ℚ) := by
      exact_mod_cast hstep
    rw [heq, heqlo]
    linarith

/-- Witness for C1 at the §8 scenario hand. -/
theorem evaluateHand_category_bounds_witness :
    (handScore scenarioHand % 100 = 0 ∧ handScore scenarioHand ≤ 900) ∧
    evaluateHand (some scenarioHand)
      = (handScore scenarioHand : ℚ) + (tieBreakerNat scenarioHand : ℚ) / 10 ^ 10 ∧
    (0 ≤ (tieBreakerNat scenarioHand : ℚ) / 10 ^ 10 ∧
      (tieBreakerNat scenarioHand : ℚ) / 10 ^ 10 < 1) ∧
    (0 ≤ evaluateHand (some scenarioHand) ∧ evaluateHand (some scenarioHand) < 901) ∧
    ∀ lo : List Card, lo.length = 5 → (∀ c ∈ lo, ValidCard c) →
      handScore lo < handScore scenarioHand →
      evaluateHand (some lo) < evaluateHand (some scenarioHand) :=
  evaluateHand_category_bounds scenarioHand (by decide) (by decide)

/-! ### C5: order-independence and high-card dominance within a category -/

/-- C5: `evaluateHand` is invariant under permuting the hand, and of two
5-card hands of the same category whose descending rank lists agree except
for a strictly higher first (highest) rank, the higher one strictly wins. -/
theorem evaluateHand_perm_highcard :
    (∀ c₁ c₂ : List Card, c₁.Perm c₂ →
      evaluateHand (some c₁) = evaluateHand (some c₂)) ∧
    (∀ (c₁ c₂ : List Card) (a b : Nat) (t : List Nat),
      c₁.length = 5 → c₂.length = 5 → handScore c₁ = handScore c₂ →
      (ranksOf c₁).reverse = a :: t → (ranksOf c₂).reverse = b :: t → b < a →
      evaluateHand (some c₂) < evaluateHand (some c₁)) := by
  constructor
  · intro c₁ c₂ h
    show (if c₁.length = 5 then (handScore c₁ : ℚ) + (tieBreakerNat c₁ : ℚ) / 10 ^ 10 else 0)
      = (if c₂.length = 5 then (handScore c₂ : ℚ) + (tieBreakerNat c₂ : ℚ) / 10 ^ 10 else 0)
    rw [h.length_eq, handScore_perm h, tieBreakerNat_perm h]
  · intro c₁ c₂ a b t h₁ h₂ hs hr₁ hr₂ hab
    have htb : tieBreakerNat c₂ < tieBreakerNat c₁ := by
      unfold tieBreakerNat
      rw [hr₁, hr₂]
      simp only [List.foldl_cons]
      exact foldl_digits_strictMono t (by omega)
    rw [evaluateHand_eq_five c₁ h₁, evaluateHand_eq_five c₂ h₂, hs]
    have hcast : (tieBreakerNat c₂ : ℚ) < (tieBreakerNat c₁ : ℚ) := by exact_mod_cast htb
    have hdiv : (tieBreakerNat c₂ : ℚ) / 10 ^ 10 < (tieBreakerNat c₁ : ℚ) / 10 ^ 10 := by
      gcongr
    linarith

/-- Witness for C5: a concrete permutation of the scenario hand evaluates
equally, and the King variant scores strictly below the Ace original. -/
theorem evaluateHand_perm_highcard_witness :
    evaluateHand (some swappedScenarioHand) = evaluateHand (some scenarioHand) ∧
    evaluateHand (some kingHand) < evaluateHand (some scenarioHand) :=
  ⟨evaluateHand_perm_highcard.1 swappedScenarioHand scenarioHand (by decide),
   evaluateHand_perm_highcard.2 scenarioHand kingHand 14 13 [9, 8, 7, 6]
     (by decide) (by decide) (by decide) (by decide) (by decide) (by decide)⟩

/-! ### C8: zero exactly on invalid input -/

/-- C8: `evaluateHand` returns 0 on an absent hand and on any hand whose
length is not 5 (in particular the empty hand), and returns a strictly
positive value on every valid 5-card hand. -/
theorem evaluateHand_zero_iff :
    evaluateHand none = 0 ∧ evaluateHand (some []) = 0 ∧
    (∀ cards : List Card, cards.length ≠ 5 → evaluateHand (some cards) = 0) ∧
    (∀ cards : List Card, cards.length = 5 → (∀ c ∈ cards, ValidCard c) →
      0 < evaluateHand (some cards)) := by
  refine ⟨rfl, rfl, ?_, ?_⟩
  · intro cards h
    show (if cards.length = 5 then
        (handScore cards : ℚ) + (tieBreakerNat cards : ℚ) / 10 ^ 10 else 0) = 0
    rw [if_neg h]
  · intro cards h5 hv
    rw [evaluateHand_eq_five cards h5]
    have h1 : (0 : ℚ) < (tieBreakerNat cards : ℚ) / 10 ^ 10 := by
      apply div_pos _ (by positivity)
      exact_mod_cast tieBreakerNat_pos cards h5 hv
    have h2 : (0 : ℚ) ≤ (handScore cards : ℚ) := by positivity
    linarith

/-! ### Helper lemmas about the draw decision -/

theorem keepFirstMax_length (m : Nat) (l : List Card) (k : Bool) :
    (keepFirstMax m l k).length = l.length := by
  induction l generalizing k with
  | nil => rfl
  | cons c rest ih =>
    unfold keepFirstMax
    split
    · simp [ih]
    · simp [ih]

theorem keepFirstMax_kept (m : Nat) (l : List Card) :
    keepFirstMax m l true = List.replicate l.length true := by
  induction l with
  | nil => rfl
  | cons c rest ih => simp [keepFirstMax, ih, List.replicate_succ]

theorem getD_replicate_true (n i : Nat) :
    (List.replicate n true).getD i true = true := by
  induction n generalizing i with
  | zero => cases i <;> rfl
  | succ n ih =>
    cases i with
    | zero => rfl
    | succ i => simp [List.replicate_succ, ih i]

theorem foldr_max_mem : ∀ l : List Nat, l ≠ [] → l.foldr max 0 ∈ l
  | [], h => absurd rfl h
  | [a], _ => by simp
  | a :: b :: t, _ => by
    show max a ((b :: t).foldr max 0) ∈ a :: b :: t
    rcases le_total ((b :: t).foldr max 0) a with h | h
    · rw [max_eq_left h]
      exact List.mem_cons_self _ _
    · rw [max_eq_right h]
      exact List.mem_cons_of_mem a (foldr_max_mem (b :: t) (by simp))

theorem maxRankOf_mem (cards : List Card) (h : cards ≠ []) :
    maxRankOf cards ∈ cards.map toRank :=
  foldr_max_mem (cards.map toRank) (fun hm => h (List.map_eq_nil_iff.mp hm))

theorem keepFirstMax_spec (m : Nat) :
    ∀ l : List Card, m ∈ l.map toRank →
    ∃ j : Nat, ∃ hj : j < l.length,
      toRank (l.get ⟨j, hj⟩) = m ∧
      (∀ i : Nat, i < j → ∀ hi : i < l.length, toRank (l.get ⟨i, hi⟩) ≠ m) ∧
      (keepFirstMax m l false).length = l.length ∧
      (∀ i : Nat, i < l.length → (keepFirstMax m l false).getD i true = decide (i ≠ j))
  | [], hm => by simp at hm
  | c :: rest, hm => by
    by_cases hc : toRank c = m
    · have hunf : keepFirstMax m (c :: rest) false
          = false :: keepFirstMax m rest true := by
        simp [keepFirstMax, hc]
      refine ⟨0, Nat.succ_pos _, hc, ?_, ?_, ?_⟩
      · intro i hi
        omega
      · rw [hunf, keepFirstMax_kept]
        simp
      · intro i hi
        rw [hunf]
        cases i with
        | zero => simp
        | succ i =>
          rw [keepFirstMax_kept]
          simp [getD_replicate_true]
    · have hm' : m ∈ rest.map toRank := by
        rcases List.mem_cons.mp hm with h0 | h0
        · exact absurd h0.symm hc
        · exact h0
      obtain ⟨j, hj, hget, hfirst, hlen, hgetD⟩ := keepFirstMax_spec m rest hm'
      have hunf : keepFirstMax m (c :: rest) false
          = true :: keepFirstMax m rest false := by
        simp [keepFirstMax, hc]
      refine ⟨j + 1, by simpa using Nat.succ_lt_succ hj, by simpa using hget, ?_, ?_, ?_⟩
      · intro i hi hilt
        cases i with
        | zero => simpa using hc
        | succ i =>
          have : i < j := by omega
          simpa using hfirst i this (by simpa using hilt)
      · rw [hunf]
        simp [hlen]
      · intro i hi
        rw [hunf]
        cases i with
        | zero => simp
        | succ i =>
          have hi' : i < rest.length := by simpa using hi
          rw [List.getD_cons_succ, hgetD i hi']
          rw [decide_eq_decide]
          omega

/-- Below strength 100 the draw decision is the high-card pass. -/
theorem decideDraw_highCard_eq (cards : List Card) (s : ℚ) (hs : s < 100) :
    decideDraw cards s = keepFirstMax (maxRankOf cards) cards false := by
  unfold decideDraw
  rw [if_neg (by linarith), if_neg (by linarith), if_neg (by linarith),
    if_neg (by linarith)]

/-! ### C6: straight or better keeps all five cards -/

/-- C6: for every 5-card hand and every strength at least 400, `decideDraw`
returns five `false`s (keep everything). -/
theorem decideDraw_keepAll (cards : List Card) (s : ℚ)
    (_h5 : cards.length = 5) (hs : 400 ≤ s) :
    decideDraw cards s = [false, false, false, false, false] := by
  unfold decideDraw
  rw [if_pos hs]

/-- Witness for C6 at the royal-flush hand and strength 900. -/
theorem decideDraw_keepAll_witness :
    decideDraw royalHand 900 = [false, false, false, false, false] :=
  decideDraw_keepAll royalHand 900 (by decide) (by norm_num)

/-! ### C7: high-card hands keep only the first maximal-rank card -/

/-- C7: on a 5-card hand of strength below 100, `decideDraw` answers `false`
exactly at the first position attaining the maximum rank (Ace counting 14)
and `true` everywhere else; on the §8 scenario hand the category is 0, the
strength lies in `[0, 1)`, and only the Ace is kept. -/
theorem decideDraw_highCard :
    (∀ (cards : List Card) (s : ℚ), cards.length = 5 → s < 100 →
      ∃ j : Nat, ∃ hj : j < cards.length,
        toRank (cards.get ⟨j, hj⟩) = maxRankOf cards ∧
        (∀ i : Nat, i < j → ∀ hi : i < cards.length,
          toRank (cards.get ⟨i, hi⟩) ≠ maxRankOf cards) ∧
        (decideDraw cards s).length = cards.length ∧
        (∀ i : Nat, i < cards.length →
          (decideDraw cards s).getD i true = decide (i ≠ j))) ∧
    (handScore scenarioHand = 0 ∧
      0 ≤ evaluateHand (some scenarioHand) ∧ evaluateHand (some scenarioHand) < 1 ∧
      decideDraw scenarioHand (evaluateHand (some scenarioHand))
        = [false, true, true, true, true]) := by
  constructor
  · intro cards s h5 hs
    rw [decideDraw_highCard_eq cards s hs]
    apply keepFirstMax_spec
    apply maxRankOf_mem
    intro hnil
    rw [hnil] at h5
    simp at h5
  · have hs0 : handScore scenarioHand = 0 := by decide
    have h5 : scenarioHand.length = 5 := by decide
    have hv : ∀ c ∈ scenarioHand, ValidCard c := by decide
    have heq := evaluateHand_eq_five scenarioHand h5
    have hnn := tieFrac_nonneg scenarioHand
    have hlt := tieFrac_lt_one scenarioHand h5 hv
    have heval0 : 0 ≤ evaluateHand (some scenarioHand) := by
      rw [heq, hs0]
      push_cast
      linarith
    have heval1 : evaluateHand (some scenarioHand) < 1 := by
      rw [heq, hs0]
      push_cast
      linarith
    refine ⟨hs0, heval0, heval1, ?_⟩
    rw [decideDraw_highCard_eq _ _ (by linarith)]
    decide

/-! ### C3: length of the draw hook's answer -/

/-- The draw decision for a hand scored by `evaluateHand` has one entry per
card: the keep-all branch is reachable only with 5 cards, and every other
branch maps over the hand. -/
theorem decideDraw_eval_length (cards : List Card) :
    (decideDraw cards (evaluateHand (some cards))).length = cards.length := by
  unfold decideDraw
  split_ifs with h1 h2 h3 h4
  · by_cases h5 : cards.length = 5
    · simp [h5]
    · exfalso
      have hz : evaluateHand (some cards) = 0 := by
        show (if cards.length = 5 then
            (handScore cards : ℚ) + (tieBreakerNat cards : ℚ) / 10 ^ 10 else 0) = 0
        rw [if_neg h5]
      rw [hz] at h1
      norm_num at h1
  · cases hfc : findRankWithCount cards 3 <;> simp
  · cases hfc : findRankWithCount cards 1 <;> simp
  · cases hfc : findRankWithCount cards 2 <;> simp
  · exact keepFirstMax_length _ _ _

/-- A snapshot with an empty player map. -/
def emptySnapshot : GameInfo :=
  { players := [], pot := 0, minBetPoint := 0, currentRound := 1, winner := none }

/-- C3 counterexample: on a snapshot whose player map lacks the player's own
entry, the draw hook returns the empty sequence — not 5 booleans. -/
theorem drawCard_missing_counterexample :
    (drawCard "Alice" emptySnapshot).length ≠ 5 := by decide

/-- C3 amended: the draw hook returns one boolean per card actually held —
exactly 5 booleans whenever the own entry is present and holds a 5-card
hand — but when the own entry (or its card list) is absent it returns the
empty sequence, not the strength-0 keep-1-discard-4 pattern. -/
theorem drawCard_length (name : String) (data : GameInfo) :
    (drawCard name data).length
      = (((data.players.lookup name).bind fun self => self.round.cards).getD []).length ∧
    (data.players.lookup name = none → drawCard name data = []) := by
  constructor
  · exact decideDraw_eval_length _
  · intro h
    unfold drawCard
    rw [h]
    rfl

/-- Witness for C3's amended claim on a snapshot with an absent entry. -/
theorem drawCard_length_witness :
    (drawCard "Alice" emptySnapshot).length
      = (((emptySnapshot.players.lookup "Alice").bind
          fun self => self.round.cards).getD []).length ∧
    (emptySnapshot.players.lookup "Alice" = none →
      drawCard "Alice" emptySnapshot = []) :=
  drawCard_length "Alice" emptySnapshot

/-! ### C10: the draw decision never depends on suits -/

theorem map_toRank_eq_of_numbers {c₁ c₂ : List Card}
    (h : c₁.map Card.number = c₂.map Card.number) :
    c₁.map toRank = c₂.map toRank := by
  have e₁ : c₁.map toRank
      = (c₁.map Card.number).map (fun n => if n = 1 then 14 else n) := by
    rw [List.map_map]
    rfl
  have e₂ : c₂.map toRank
      = (c₂.map Card.number).map (fun n => if n = 1 then 14 else n) := by
    rw [List.map_map]
    rfl
  rw [e₁, e₂, h]

theorem keepFirstMax_congr (m : Nat) :
    ∀ l₁ l₂ : List Card, l₁.map toRank = l₂.map toRank →
      ∀ k : Bool, keepFirstMax m l₁ k = keepFirstMax m l₂ k
  | [], [], _, _ => rfl
  | [], c :: t, h, _ => by simp at h
  | c :: t, [], h, _ => by simp at h
  | c :: t, c' :: t', h, k => by
    simp only [List.map_cons, List.cons.injEq] at h
    obtain ⟨hc, ht⟩ := h
    unfold keepFirstMax
    rw [hc]
    split
    · rw [keepFirstMax_congr m t t' ht true]
    · rw [keepFirstMax_congr m t t' ht k]

/-- C10: `decideDraw` is suit-blind — two hands agreeing pointwise on card
numbers receive identical decisions for every strength. -/
theorem decideDraw_suit_blind (c₁ c₂ : List Card) (s : ℚ)
    (h : c₁.map Card.number = c₂.map Card.number) :
    decideDraw c₁ s = decideDraw c₂ s := by
  have hr := map_toRank_eq_of_numbers h
  have hfind : ∀ k, findRankWithCount c₁ k = findRankWithCount c₂ k := by
    intro k
    unfold findRankWithCount
    rw [hr]
  have hmap : ∀ f : Nat → Bool,
      c₁.map (fun card => f (toRank card)) = c₂.map (fun card => f (toRank card)) := by
    intro f
    have e₁ : c₁.map (fun card => f (toRank card)) = (c₁.map toRank).map f := by
      rw [List.map_map]
      rfl
    have e₂ : c₂.map (fun card => f (toRank card)) = (c₂.map toRank).map f := by
      rw [List.map_map]
      rfl
    rw [e₁, e₂, hr]
  have hmax : maxRankOf c₁ = maxRankOf c₂ := by
    unfold maxRankOf
    rw [hr]
  unfold decideDraw
  split_ifs
  · rfl
  · rw [hfind 3]
    cases findRankWithCount c₂ 3 with
    | none => exact hmap (fun _ => true)
    | some threeRank => exact hmap (fun x => !(x == threeRank))
  · rw [hfind 1]
    cases findRankWithCount c₂ 1 with
    | none => exact hmap (fun _ => false)
    | some singleRank => exact hmap (fun x => x == singleRank)
  · rw [hfind 2]
    cases findRankWithCount c₂ 2 with
    | none => exact hmap (fun _ => true)
    | some pairRank => exact hmap (fun x => !(x == pairRank))
  · rw [hmax]
    exact keepFirstMax_congr _ c₁ c₂ hr false

/-- The scenario hand's numbers with every suit made Spades. -/
def allSpadesScenario : List Card :=
  [⟨.Spades, 1⟩, ⟨.Spades, 7⟩, ⟨.Spades, 6⟩, ⟨.Spades, 9⟩, ⟨.Spades, 8⟩]

/-- Witness for C10: re-suiting the scenario hand leaves the decision alone. -/
theorem decideDraw_suit_blind_witness :
    decideDraw scenarioHand 0 = decideDraw allSpadesScenario 0 :=
  decideDraw_suit_blind scenarioHand allSpadesScenario 0 (by decide)

/-! ### C2: the bet hook against the §4.3 reference policy -/

/-- C2: on every snapshot the bet hook computes exactly the §4.3 reference
policy — fold on a missing own entry, half-pot open or capped double raise
at two pair or better, fold-above-half-pot at one pair, and
check/speculative-call/fold below. -/
theorem decideBetPoint_eq_spec (name : String) (data : GameInfo) :
    decideBetPoint name data = betPolicySpec name data := rfl

/-! ### C4: idempotence of the lifecycle hooks -/

/-- A snapshot announcing player `"me"` as the round's winner. -/
def winSnapshot : GameInfo :=
  { players := [], pot := 0, minBetPoint := 0, currentRound := 1, winner := some "me" }

/-- C4 counterexample: the end hook is not idempotent — on a snapshot naming
this player as the winner, a second invocation with the identical snapshot
increments the win counter again. -/
theorem endRound_not_idempotent :
    endRound (endRound ⟨"game", "me", 1, 0⟩ winSnapshot) winSnapshot
      ≠ endRound ⟨"game", "me", 1, 0⟩ winSnapshot := by decide

/-- C4 amended: `startRound` is idempotent on identical input (and the bet
and draw hooks touch no session state at all, being functions of the name
and snapshot only), but `endRound` run twice on the same snapshot equals one
run exactly when the snapshot's winner is not this player's name. -/
theorem hooks_idempotence (s : Session) (data : GameInfo) :
    startRound (startRound s data) data = startRound s data ∧
    (endRound (endRound s data) data = endRound s data ↔
      data.winner ≠ some s.name) := by
  constructor
  · rfl
  · by_cases h : data.winner = some s.name
    · simp [endRound, h]
    · simp [endRound, h]

/-! ### C9: frame effect of the end hook -/

/-- C9: after `endRound` the win counter increments by exactly 1 when the
snapshot's winner equals this player's name and is unchanged otherwise; the
id, name and round fields are unchanged in both cases. -/
theorem endRound_frame (s : Session) (data : GameInfo) :
    (endRound s data).id = s.id ∧ (endRound s data).name = s.name ∧
    (endRound s data).round = s.round ∧
    (data.winner = some s.name → (endRound s data).win = s.win + 1) ∧
    (data.winner ≠ some s.name → (endRound s data).win = s.win) := by
  unfold endRound
  by_cases h : data.winner = some s.name <;> simp [h]

end Team2
